import Mathlib

/-!
# Inventory lot-costing and document-posting engine: verification development

Shallow embedding of the erp-v3 inventory core (FIFO lot costing, purchase
posting, write-off consumption, movement ledger) together with the frontend
computations that feed it (`src/frontend/app/(app)/warehouse/page.tsx`,
`src/unnamed/part_000`, `src/frontend/types/api.ts`).

The backend engine itself (FastAPI app started by `src/backend/entrypoint.sh`)
is not part of the repository snapshot; only its REST callers, its response
types and its entrypoint are.  Definitions for the engine below are therefore
modelled from the specification (sections 3, 4 and 7 of `spec.md`) and are
marked `Modelled from the spec:` in their doc comments.  Frontend definitions
are translated directly from the TypeScript sources.

Quantities, prices and costs are embedded as rationals (`ℚ`): the spec speaks
of exact arithmetic (e.g. `50/1.2 = 41.666...`, write-off cost `1250.00`), and
`ℚ` is the executable idealization of the JS numbers used by the callers.
A JS number that may be `NaN`/`Infinity` (the result of `Number(string)` /
`asNum`) is embedded as `Option ℚ`, `none` standing for a non-finite value.
-/

/-- Modelled from the spec: material record (§3); the backend table is not in
the snapshot, only the `Material` response type in `src/frontend/types/api.ts`. -/
structure Material where
  id : Nat
  base_uom : String
  is_lot_tracked : Bool
  is_void : Bool
deriving DecidableEq, Repr

/-- Modelled from the spec: cost lot (§3 **Lot**); `qty_in` fixed at creation,
`qty_out` monotonically non-decreasing, `created_at` is the posting-time FIFO
ordering key.  Matches the `LotRow` shape of `src/frontend/types/api.ts`. -/
structure Lot where
  lot_id : Nat
  material_id : Nat
  qty_in : ℚ
  qty_out : ℚ
  unit_cost : ℚ
  created_at : Nat
deriving DecidableEq, Repr

/-- Derived remaining quantity: `qty_remaining = qty_in − qty_out` (§3). -/
def Lot.qty_remaining (l : Lot) : ℚ := l.qty_in - l.qty_out

/-- Movement types of the ledger (§3 **Movement**). -/
inductive MvType where
  | receipt
  | consumption
  | voidReversal
deriving DecidableEq, Repr

/-- Modelled from the spec: a ledger movement (§3 **Movement**): signed `qty`,
positive for RECEIPT, negative for CONSUMPTION.  Matches `MovementRow` in
`src/frontend/types/api.ts`. -/
structure Movement where
  lot_id : Nat
  material_id : Nat
  mv_type : MvType
  qty : ℚ
deriving DecidableEq, Repr

/-- The three VAT modes of a purchase document, from the `VAT_MODES` constant
of `src/frontend/app/(app)/warehouse/page.tsx` and §3 of the spec. -/
inductive VatMode where
  | no_vat
  | vat_included
  | vat_on_top
deriving DecidableEq, Repr

/-- Document lifecycle states (§3): DRAFT, POSTED, VOID. -/
inductive DocStatus where
  | draft
  | posted
  | void
deriving DecidableEq, Repr

/-- Purchase line, as in `PurchaseLine` of `src/frontend/types/api.ts`. -/
structure PurchaseLine where
  material_id : Nat
  qty : ℚ
  uom : String
  unit_price : ℚ
  vat_rate : ℚ
deriving DecidableEq, Repr

/-- Modelled from the spec: purchase document (§3 **PurchaseDocument**) with
its status machine; matches `PurchaseDoc` of `src/frontend/types/api.ts`. -/
structure PurchaseDocument where
  id : Nat
  vat_mode : VatMode
  status : DocStatus
  lines : List PurchaseLine
  posted_at : Option Nat
  void_reason : Option String
deriving DecidableEq, Repr

/-- Write-off line, as in `WriteoffLineIn` of `src/frontend/types/api.ts`:
material, quantity, uom and an optional conversion factor to the base UOM. -/
structure WriteoffLine where
  material_id : Nat
  qty : ℚ
  uom : String
  uom_factor : Option ℚ
deriving DecidableEq, Repr

/-- Write-off reasons, from `WriteoffCreate` of `src/frontend/types/api.ts`. -/
inductive WoReason where
  | production
  | scrap
  | other
deriving DecidableEq, Repr

/-- Modelled from the spec: persisted write-off document (§3) with its computed
total cost (§4.2 step 5). -/
structure WriteoffDocument where
  reason : WoReason
  comment : Option String
  cost : ℚ
deriving DecidableEq, Repr

/-- Modelled from the spec: the durable state of the core — Lot Store, Movement
Ledger, documents and id/clock counters (§2, §6 "Persisted state"). -/
structure EngineState where
  materials : List Material
  purchases : List PurchaseDocument
  lots : List Lot
  movements : List Movement
  writeoffs : List WriteoffDocument
  nextMatId : Nat
  nextDocId : Nat
  nextLotId : Nat
  clock : Nat
deriving DecidableEq, Repr

/-- The empty initial state. -/
def initState : EngineState :=
  { materials := [], purchases := [], lots := [], movements := [], writeoffs := []
    nextMatId := 1, nextDocId := 1, nextLotId := 1, clock := 0 }

/-- Modelled from the spec: VAT-net unit cost of a purchase line (§4.1 step 2):
`no_vat` → unit_price as-is; `vat_included` → unit_price / (1 + vat_rate/100);
`vat_on_top` → unit_price unchanged. -/
def unitCostOf (mode : VatMode) (unit_price vat_rate : ℚ) : ℚ :=
  match mode with
  | .no_vat => unit_price
  | .vat_included => unit_price / (1 + vat_rate / 100)
  | .vat_on_top => unit_price

/-- Per-material stock on hand: Σ qty_remaining over that material's lots
(§4.3 `StockOnHand`). -/
def stockOnHand (lots : List Lot) (m : Nat) : ℚ :=
  ((lots.filter (fun l => l.material_id == m)).map Lot.qty_remaining).sum

/-- Replay of the Movement Ledger for one material: Σ signed movement
quantities (§3 invariants, §4.3). -/
def movementReplay (mvs : List Movement) (m : Nat) : ℚ :=
  ((mvs.filter (fun mv => mv.material_id == m)).map Movement.qty).sum

/-- Errors of the purchase posting workflow (§4.1, §7). -/
inductive PostError where
  | notFound
  | alreadyFinalized
  | validation
deriving DecidableEq, Repr

/-- Errors of the write-off consumption engine (§4.2, §7):
`badUom` is the 400-class bad UOM conversion, `insufficientStock` carries the
offending material id and the shortfall amount. -/
inductive WriteoffError where
  | badUom (material_id : Nat)
  | insufficientStock (material_id : Nat) (shortfall : ℚ)
  | validation
deriving DecidableEq, Repr

/-- Errors of the void path (§4.4): 409 if status ≠ DRAFT. -/
inductive VoidError where
  | notFound
  | conflict
deriving DecidableEq, Repr

/-- Errors of draft-purchase creation (§6 `POST /purchases`, §7). -/
inductive CreateError where
  | validation
deriving DecidableEq, Repr

/-- Look a purchase document up by id. -/
def findDoc (s : EngineState) (docId : Nat) : Option PurchaseDocument :=
  s.purchases.find? (fun d => d.id == docId)

/-- Modelled from the spec: §4.1 precondition on a line — the referenced
material exists, is not void, and is lot-tracked. -/
def lineMaterialOk (mats : List Material) (l : PurchaseLine) : Bool :=
  match mats.find? (fun m => m.id == l.material_id) with
  | none => false
  | some m => m.is_lot_tracked && !m.is_void

/-- Modelled from the spec: §3/§7 input validation for a purchase line —
qty > 0, unit_price ≥ 0, vat_rate between 0 and 100. -/
def lineBoundsOk (l : PurchaseLine) : Bool :=
  (0 < l.qty) && (0 ≤ l.unit_price) && (0 ≤ l.vat_rate) && (l.vat_rate ≤ 100)

/-- Modelled from the spec: create a DRAFT purchase document
(§6 `POST /purchases`); a line with qty ≤ 0 (or a missing material, or a
vat_rate out of 0–100) is rejected with `ValidationError` before any write
(§7). -/
def createDraft (s : EngineState) (mode : VatMode) (lines : List PurchaseLine) :
    Except CreateError EngineState :=
  if lines.all (fun l => lineMaterialOk s.materials l && lineBoundsOk l) then
    .ok { s with
      purchases := s.purchases ++
        [{ id := s.nextDocId, vat_mode := mode, status := .draft, lines := lines
           posted_at := none, void_reason := none }]
      nextDocId := s.nextDocId + 1 }
  else
    .error .validation

/-- Modelled from the spec: create a material (callers: `createMaterial` in
`src/frontend/app/(app)/warehouse/page.tsx`). -/
def addMaterial (s : EngineState) (base_uom : String) (tracked : Bool) : EngineState :=
  { s with
    materials := s.materials ++
      [{ id := s.nextMatId, base_uom := base_uom, is_lot_tracked := tracked, is_void := false }]
    nextMatId := s.nextMatId + 1 }

/-- Modelled from the spec: §4.1 step 3 — one new Lot per line, `qty_in = qty`,
`qty_out = 0`, `created_at = now` (posting time), `unit_cost` net of VAT. -/
def mkLots (mode : VatMode) (startId now : Nat) : List PurchaseLine → List Lot
  | [] => []
  | l :: rest =>
      { lot_id := startId, material_id := l.material_id, qty_in := l.qty, qty_out := 0
        unit_cost := unitCostOf mode l.unit_price l.vat_rate, created_at := now } ::
        mkLots mode (startId + 1) now rest

/-- Modelled from the spec: §4.1 step 4 — one RECEIPT movement per created lot,
with positive quantity `qty_in`. -/
def mkReceipts (lots : List Lot) : List Movement :=
  lots.map (fun l =>
    { lot_id := l.lot_id, material_id := l.material_id, mv_type := .receipt, qty := l.qty_in })

/-- Modelled from the spec: the purchase posting workflow `Post(purchaseDocId)`
(§4.1): re-posting a non-DRAFT document fails with `AlreadyFinalized`; on
success one lot and one RECEIPT movement per line are appended and the document
becomes POSTED, all-or-nothing. -/
def postDoc (s : EngineState) (docId : Nat) : Except PostError EngineState :=
  match findDoc s docId with
  | none => .error .notFound
  | some doc =>
    if doc.status == .draft then
      if doc.lines.all (lineMaterialOk s.materials) then
        let newLots := mkLots doc.vat_mode s.nextLotId s.clock doc.lines
        .ok { s with
          lots := s.lots ++ newLots
          movements := s.movements ++ mkReceipts newLots
          purchases := s.purchases.map (fun d =>
            if d.id == docId then { d with status := .posted, posted_at := some s.clock } else d)
          nextLotId := s.nextLotId + doc.lines.length
          clock := s.clock + 1 }
      else .error .validation
    else .error .alreadyFinalized

/-- Modelled from the spec: the void path `Void(purchaseDocId, reason)` (§4.4):
permitted only while status = DRAFT (otherwise 409), purely a status change —
it does not touch the Lot Store or the Movement Ledger. -/
def voidDoc (s : EngineState) (docId : Nat) (reason : String) : Except VoidError EngineState :=
  match findDoc s docId with
  | none => .error .notFound
  | some doc =>
    if doc.status == .draft then
      .ok { s with
        purchases := s.purchases.map (fun d =>
          if d.id == docId then { d with status := .void, void_reason := some reason } else d) }
    else .error .conflict

/-- FIFO key order on lots: ascending `(created_at, lot_id)` (§3 invariants,
§4.2 step 2). -/
def fifoLE (a b : Lot) : Bool :=
  (a.created_at < b.created_at) || (a.created_at == b.created_at && a.lot_id ≤ b.lot_id)

/-- Insert a lot into a FIFO-ordered list, keeping the order. -/
def insertFifo (l : Lot) : List Lot → List Lot
  | [] => [l]
  | x :: xs => if fifoLE l x then l :: x :: xs else x :: insertFifo l xs

/-- The Lot Store viewed in FIFO order (§4.2 step 2: "ordered ascending by
`(created_at, lot_id)`"), computed by insertion sort. -/
def fifoSort : List Lot → List Lot
  | [] => []
  | x :: xs => insertFifo x (fifoSort xs)

/-- Modelled from the spec: §4.2 step 1 — convert the requested quantity to the
material's base UOM using the optional `uom_factor`; if no factor is supplied
and the UOM differs from the base UOM, reject the line (400-class bad UOM
conversion). -/
def convertQty (mats : List Material) (l : WriteoffLine) : Except WriteoffError ℚ :=
  match mats.find? (fun m => m.id == l.material_id) with
  | none => .error .validation
  | some m =>
    match l.uom_factor with
    | some f => .ok (l.qty * f)
    | none => if l.uom == m.base_uom then .ok l.qty else .error (.badUom l.material_id)

/-- Modelled from the spec: §4.2 step 3 — walk the FIFO-ordered lot list; for
each lot of the requested material with `qty_remaining > 0`, consume
`min(remaining_needed, lot.qty_remaining)`, advance `qty_out`, append a
CONSUMPTION movement of `-consume`, accumulate `consume * unit_cost` into the
line cost; stop when nothing is needed.  Returns the updated lot list (same
order), the consumption movements, the line cost and the unmet remainder. -/
def consumeWalk (m : Nat) (need : ℚ) :
    List Lot → List Lot × List Movement × ℚ × ℚ
  | [] => ([], [], 0, need)
  | l :: rest =>
    if l.material_id == m && 0 < l.qty_remaining && 0 < need then
      let c := min need l.qty_remaining
      let r := consumeWalk m (need - c) rest
      ({ l with qty_out := l.qty_out + c } :: r.1,
       { lot_id := l.lot_id, material_id := m, mv_type := .consumption, qty := -c } :: r.2.1,
       c * l.unit_cost + r.2.2.1,
       r.2.2.2)
    else
      let r := consumeWalk m need rest
      (l :: r.1, r.2.1, r.2.2.1, r.2.2.2)

/-- Modelled from the spec: §4.2 per-line processing within one transaction —
validate qty > 0 (§7 `ValidationError`), convert to base UOM, run the FIFO
walk; if the remainder is positive the material has insufficient stock and the
**entire** write-off aborts.  Threads the lot list through the lines and
collects movements and total cost. -/
def runLines (mats : List Material) (lots : List Lot) :
    List WriteoffLine → Except WriteoffError (List Lot × List Movement × ℚ)
  | [] => .ok (lots, [], 0)
  | l :: rest =>
    if 0 < l.qty then
      match convertQty mats l with
      | .error e => .error e
      | .ok need =>
        let r := consumeWalk l.material_id need lots
        if 0 < r.2.2.2 then
          .error (.insufficientStock l.material_id r.2.2.2)
        else
          match runLines mats r.1 rest with
          | .error e => .error e
          | .ok (lots2, mvs2, cost2) => .ok (lots2, r.2.1 ++ mvs2, r.2.2.1 + cost2)
    else .error .validation

/-- Modelled from the spec: the write-off consumption engine
`CreateWriteoff(reason, comment, lines[])` (§4.2): all lines are processed
against the FIFO-ordered Lot Store in one atomic operation; on any failure the
call returns the error and no state is produced (the write-off document does
not exist); on success the consumed lots, the CONSUMPTION movements and the
write-off document with its total cost are committed. -/
def createWriteoff (s : EngineState) (reason : WoReason) (comment : Option String)
    (lines : List WriteoffLine) : Except WriteoffError EngineState :=
  match runLines s.materials (fifoSort s.lots) lines with
  | .error e => .error e
  | .ok (lots2, mvs, cost) =>
    .ok { s with
      lots := lots2
      movements := s.movements ++ mvs
      writeoffs := s.writeoffs ++ [{ reason := reason, comment := comment, cost := cost }]
      clock := s.clock + 1 }

/-- Modelled from the spec: one public operation of the core (§5: `Post`,
`CreateWriteoff`, `Void`, plus the collaborator entry points that create
materials and DRAFT documents), taken only when it succeeds. -/
inductive EngineStep : EngineState → EngineState → Prop
  | material (s : EngineState) (uom : String) (tracked : Bool) :
      EngineStep s (addMaterial s uom tracked)
  | draft (s s' : EngineState) (mode : VatMode) (lines : List PurchaseLine)
      (h : createDraft s mode lines = .ok s') : EngineStep s s'
  | post (s s' : EngineState) (docId : Nat)
      (h : postDoc s docId = .ok s') : EngineStep s s'
  | void (s s' : EngineState) (docId : Nat) (reason : String)
      (h : voidDoc s docId reason = .ok s') : EngineStep s s'
  | writeoff (s s' : EngineState) (reason : WoReason) (comment : Option String)
      (lines : List WriteoffLine)
      (h : createWriteoff s reason comment lines = .ok s') : EngineStep s s'

/-- States reachable from the empty store through the public operations. -/
inductive Reachable : EngineState → Prop
  | init : Reachable initState
  | step {s s' : EngineState} : Reachable s → EngineStep s s' → Reachable s'

/-! ## Frontend definitions (translated from the TypeScript sources) -/

/-- The `value` strings of the `VAT_MODES` constant in
`src/frontend/app/(app)/warehouse/page.tsx` (lines 29–33): the options offered
by the warehouse purchase form and the only values its `vatMode` state can
take. -/
def warehouseVatModeValues : List String := ["no_vat", "vat_included", "vat_on_top"]

/-- The `value` strings of the VAT-mode `<select>` in the legacy purchases page
`src/unnamed/part_000` (the `vat select`): `with_vat` and `no_vat`. -/
def legacyVatModeValues : List String := ["with_vat", "no_vat"]

/-- The initial `vatMode` state of the legacy purchases page
(`useState("with_vat")` in `src/unnamed/part_000` line 34). -/
def legacyVatModeDefault : String := "with_vat"

/-- The vat_mode domain stated by the spec (§3):
`no_vat` | `vat_included` | `vat_on_top`. -/
def vatModeDomain (v : String) : Bool :=
  v == "no_vat" || v == "vat_included" || v == "vat_on_top"

/-- A line of the warehouse purchase form after the `.map` step of
`createPurchase` (`src/frontend/app/(app)/warehouse/page.tsx` lines 363–370):
`material_id` is `null` or a number (embedded `Option Int`), the numeric fields
are parse results that may be non-finite (`none`). -/
structure WarehouseRawLine where
  material_id : Option Int
  qty : Option ℚ
  uom : String
  unit_price : Option ℚ
  vat_rate : Option ℚ
deriving DecidableEq, Repr

/-- JS truthiness of the mapped `material_id` (`null` and `0` are falsy). -/
def jsTruthyId : Option Int → Bool
  | none => false
  | some n => n != 0

/-- The `.filter` predicate of `cleanLines` in `createPurchase`
(`src/frontend/app/(app)/warehouse/page.tsx` line 371):
`l.material_id && isFinite(l.qty) && isFinite(l.unit_price)`. -/
def warehouseLineKept (l : WarehouseRawLine) : Bool :=
  jsTruthyId l.material_id && l.qty.isSome && l.unit_price.isSome

/-- A line of the legacy purchases page (`src/unnamed/part_000`): numeric
fields straight from the inputs, `qty`/`unit_price` possibly `NaN` (`none`). -/
structure LegacyRawLine where
  material_id : Int
  qty : Option ℚ
  uom : String
  unit_price : Option ℚ
  vat_rate : Option ℚ
deriving DecidableEq, Repr

/-- JS comparison `x > 0` on a possibly-NaN number (`NaN > 0` is `false`). -/
def jsGtZero : Option ℚ → Bool
  | none => false
  | some q => 0 < q

/-- The `.filter` predicate of `clean` in `submit` of the legacy purchases page
(`src/unnamed/part_000` lines 82–83): `l.material_id > 0 && l.qty > 0`. -/
def legacyLineKept (l : LegacyRawLine) : Bool :=
  (0 < l.material_id) && jsGtZero l.qty

/-- `asNum` of `src/frontend/app/(app)/warehouse/page.tsx` (lines 94–97): the
parsed number when it is finite, otherwise `0`. -/
def asNum (v : Option ℚ) : ℚ := v.getD 0

/-- Numeric content of a `PurchaseLineDraft` of the warehouse form: the parse
results of the `qty`, `unit_price` and `vat_rate` string fields. -/
structure DraftLineNums where
  qty : Option ℚ
  unit_price : Option ℚ
  vat_rate : Option ℚ
deriving DecidableEq, Repr

/-- The three totals shown by the purchase modal footer. -/
structure PurchaseTotals where
  net : ℚ
  vat : ℚ
  gross : ℚ
deriving DecidableEq, Repr

/-- `purchaseTotals` of `src/frontend/app/(app)/warehouse/page.tsx` (lines
340–350): per line `lineNet = asNum(qty) * asNum(unit_price)` and
`lineVat = lineNet * (asNum(vat_rate) / 100)` accumulated into `net` and
`vat`; `gross = net + vat`. -/
def purchaseTotals (lines : List DraftLineNums) : PurchaseTotals :=
  let nv := lines.foldl
    (fun (acc : ℚ × ℚ) l =>
      let lineNet := asNum l.qty * asNum l.unit_price
      let lineVat := lineNet * (asNum l.vat_rate / 100)
      (acc.1 + lineNet, acc.2 + lineVat))
    ((0 : ℚ), (0 : ℚ))
  { net := nv.1, vat := nv.2, gross := nv.1 + nv.2 }

/-- The totals displayed by the purchase modal: the component renders
`purchaseTotals` (a memo depending only on `lines`), whatever the selected
`vatMode` is. -/
def displayedTotals (vatMode : String) (lines : List DraftLineNums) : PurchaseTotals :=
  purchaseTotals lines

/-! ## Helper lemmas: FIFO order and sorting -/

/-- The FIFO key order as a proposition. -/
def FifoLE (a b : Lot) : Prop := fifoLE a b = true

instance : DecidableRel FifoLE := fun a b => by unfold FifoLE; infer_instance

lemma fifoLE_total (a b : Lot) : FifoLE a b ∨ FifoLE b a := by
  unfold FifoLE fifoLE
  rcases Nat.lt_trichotomy a.created_at b.created_at with h | h | h
  · left; simp [h]
  · rcases Nat.le_total a.lot_id b.lot_id with h2 | h2
    · left; simp [h, h2]
    · right; simp [h, h2]
  · right; simp [h]

lemma fifoLE_trans {a b c : Lot} (hab : FifoLE a b) (hbc : FifoLE b c) : FifoLE a c := by
  unfold FifoLE fifoLE at *
  simp only [Bool.or_eq_true, Bool.and_eq_true, decide_eq_true_eq, beq_iff_eq] at *
  rcases hab with h1 | ⟨h1, h1'⟩ <;> rcases hbc with h2 | ⟨h2, h2'⟩
  · exact Or.inl (h1.trans h2)
  · exact Or.inl (h2 ▸ h1)
  · exact Or.inl (h1 ▸ h2)
  · exact Or.inr ⟨h1.trans h2, h1'.trans h2'⟩

lemma insertFifo_perm (l : Lot) (xs : List Lot) : (insertFifo l xs).Perm (l :: xs) := by
  induction xs with
  | nil => simp [insertFifo]
  | cons x xs ih =>
    unfold insertFifo
    by_cases h : fifoLE l x
    · simp [h]
    · simp only [h, if_false]
      exact ((ih.cons x).trans (List.Perm.swap l x xs))

lemma fifoSort_perm (lots : List Lot) : (fifoSort lots).Perm lots := by
  induction lots with
  | nil => simp [fifoSort]
  | cons x xs ih =>
    unfold fifoSort
    exact (insertFifo_perm x (fifoSort xs)).trans (ih.cons x)

lemma insertFifo_sorted (l : Lot) (xs : List Lot) (h : List.Sorted FifoLE xs) :
    List.Sorted FifoLE (insertFifo l xs) := by
  induction xs with
  | nil => simp [insertFifo]
  | cons x xs ih =>
    unfold insertFifo
    by_cases hle : fifoLE l x
    · simp only [hle, if_true]
      refine List.sorted_cons.mpr ⟨?_, h⟩
      intro b hb
      rcases List.mem_cons.mp hb with rfl | hb
      · exact hle
      · exact fifoLE_trans hle (List.rel_of_sorted_cons h b hb)
    · simp only [hle, if_false]
      have hx : FifoLE x l := by
        rcases fifoLE_total l x with hc | hc
        · exact absurd hc hle
        · exact hc
      refine List.sorted_cons.mpr ⟨?_, ih h.of_cons⟩
      intro b hb
      have := (insertFifo_perm l xs).mem_iff.mp hb
      rcases List.mem_cons.mp this with rfl | hbxs
      · exact hx
      · exact List.rel_of_sorted_cons h b hbxs

lemma fifoSort_sorted (lots : List Lot) : List.Sorted FifoLE (fifoSort lots) := by
  induction lots with
  | nil => simp [fifoSort]
  | cons x xs ih => exact insertFifo_sorted x (fifoSort xs) ih

/-! ## Helper lemmas: per-material sums -/

lemma stockOnHand_cons (l : Lot) (L : List Lot) (m : Nat) :
    stockOnHand (l :: L) m =
      (if l.material_id == m then l.qty_remaining else 0) + stockOnHand L m := by
  unfold stockOnHand
  by_cases h : l.material_id == m <;> simp [List.filter_cons, h]

lemma movementReplay_cons (mv : Movement) (L : List Movement) (m : Nat) :
    movementReplay (mv :: L) m =
      (if mv.material_id == m then mv.qty else 0) + movementReplay L m := by
  unfold movementReplay
  by_cases h : mv.material_id == m <;> simp [List.filter_cons, h]

lemma stockOnHand_append (a b : List Lot) (m : Nat) :
    stockOnHand (a ++ b) m = stockOnHand a m + stockOnHand b m := by
  unfold stockOnHand
  simp [List.filter_append]

lemma movementReplay_append (a b : List Movement) (m : Nat) :
    movementReplay (a ++ b) m = movementReplay a m + movementReplay b m := by
  unfold movementReplay
  simp [List.filter_append]

lemma stockOnHand_perm {a b : List Lot} (h : a.Perm b) (m : Nat) :
    stockOnHand a m = stockOnHand b m := by
  unfold stockOnHand
  exact ((h.filter _).map _).sum_eq

lemma stockOnHand_nil (m : Nat) : stockOnHand [] m = 0 := rfl

lemma movementReplay_nil (m : Nat) : movementReplay [] m = 0 := rfl

/-- A freshly created lot batch and its receipt movements replay to the same
per-material totals (used for §4.1 steps 3–4). -/
lemma mkReceipts_replay (L : List Lot) (hz : ∀ l ∈ L, l.qty_out = 0) (m : Nat) :
    movementReplay (mkReceipts L) m = stockOnHand L m := by
  induction L with
  | nil => simp [mkReceipts, movementReplay_nil, stockOnHand_nil]
  | cons l rest ih =>
    have hl : l.qty_out = 0 := hz l (List.mem_cons_self l rest)
    have hrest := ih (fun x hx => hz x (List.mem_cons_of_mem l hx))
    simp only [mkReceipts, List.map_cons] at *
    rw [movementReplay_cons, stockOnHand_cons, hrest]
    by_cases h : l.material_id == m <;> simp [h, Lot.qty_remaining, hl]

lemma mkLots_qty_out (mode : VatMode) (startId now : Nat) (ls : List PurchaseLine) :
    ∀ l ∈ mkLots mode startId now ls, l.qty_out = 0 := by
  induction ls generalizing startId with
  | nil => simp [mkLots]
  | cons x xs ih =>
    intro l hl
    rcases List.mem_cons.mp hl with rfl | hl
    · rfl
    · exact ih (startId + 1) l hl

lemma mkLots_length (mode : VatMode) (startId now : Nat) (ls : List PurchaseLine) :
    (mkLots mode startId now ls).length = ls.length := by
  induction ls generalizing startId with
  | nil => rfl
  | cons x xs ih => simp [mkLots, ih]

/-! ## Helper lemmas: the FIFO consumption walk -/

lemma consumeWalk_stock (m : Nat) (mat : Nat) :
    ∀ (lots : List Lot) (need : ℚ),
      stockOnHand (consumeWalk m need lots).1 mat =
        stockOnHand lots mat + movementReplay (consumeWalk m need lots).2.1 mat := by
  intro lots
  induction lots with
  | nil => intro need; simp [consumeWalk, stockOnHand_nil, movementReplay_nil]
  | cons l rest ih =>
    intro need
    simp only [consumeWalk]
    split
    · next hC =>
      have hm : l.material_id = m := by
        simp only [Bool.and_eq_true, beq_iff_eq] at hC
        exact hC.1.1
      simp only []
      rw [stockOnHand_cons, stockOnHand_cons, movementReplay_cons, ih]
      simp only [hm]
      by_cases hmat : (m == mat) = true <;>
        simp [hmat, Lot.qty_remaining] <;> ring
    · next hC =>
      simp only []
      rw [stockOnHand_cons, stockOnHand_cons, ih]
      ring

lemma consumeWalk_mv_neg (m : Nat) :
    ∀ (lots : List Lot) (need : ℚ), ∀ mv ∈ (consumeWalk m need lots).2.1, mv.qty < 0 := by
  intro lots
  induction lots with
  | nil => intro need mv hmv; simp [consumeWalk] at hmv
  | cons l rest ih =>
    intro need mv hmv
    simp only [consumeWalk] at hmv
    rcases hhC : (l.material_id == m && decide (0 < l.qty_remaining) && decide (0 < need)) with _ | _
    · rw [hhC] at hmv
      simp only [Bool.false_eq_true, if_false] at hmv
      exact ih need mv hmv
    · rw [hhC] at hmv
      simp only [if_true] at hmv
      rcases List.mem_cons.mp hmv with rfl | hmv
      · simp only [Bool.and_eq_true, decide_eq_true_eq] at hhC
        have : 0 < min need l.qty_remaining := lt_min hhC.2 hhC.1.2
        simpa using this
      · exact ih (need - min need l.qty_remaining) mv hmv

lemma rat_list_sum_nonpos : ∀ (l : List ℚ), (∀ q ∈ l, q ≤ 0) → l.sum ≤ 0 := by
  intro l
  induction l with
  | nil => intro _; simp
  | cons x xs ih =>
    intro h
    have hx := h x (List.mem_cons_self x xs)
    have hxs := ih (fun q hq => h q (List.mem_cons_of_mem x hq))
    simp only [List.sum_cons]
    linarith

lemma consumeWalk_replay_nonpos (m mat : Nat) (lots : List Lot) (need : ℚ) :
    movementReplay (consumeWalk m need lots).2.1 mat ≤ 0 := by
  unfold movementReplay
  refine rat_list_sum_nonpos _ ?_
  intro q hq
  rcases List.mem_map.mp hq with ⟨mv, hmv, rfl⟩
  exact le_of_lt (consumeWalk_mv_neg m lots need mv (List.mem_of_mem_filter hmv))

lemma consumeWalk_stock_le (m mat : Nat) (lots : List Lot) (need : ℚ) :
    stockOnHand (consumeWalk m need lots).1 mat ≤ stockOnHand lots mat := by
  rw [consumeWalk_stock]
  have := consumeWalk_replay_nonpos m mat lots need
  linarith

lemma consumeWalk_nonneg (m : Nat) :
    ∀ (lots : List Lot) (need : ℚ), (∀ l ∈ lots, 0 ≤ l.qty_remaining) →
      ∀ l ∈ (consumeWalk m need lots).1, 0 ≤ l.qty_remaining := by
  intro lots
  induction lots with
  | nil => intro need _ l hl; simp [consumeWalk] at hl
  | cons x rest ih =>
    intro need hnn l hl
    have hx : 0 ≤ x.qty_remaining := hnn x (List.mem_cons_self x rest)
    have hrest : ∀ l ∈ rest, 0 ≤ l.qty_remaining :=
      fun l hl => hnn l (List.mem_cons_of_mem x hl)
    simp only [consumeWalk] at hl
    rcases hhC : (x.material_id == m && decide (0 < x.qty_remaining) && decide (0 < need)) with _ | _
    · rw [hhC] at hl
      simp only [Bool.false_eq_true, if_false] at hl
      rcases List.mem_cons.mp hl with rfl | hl
      · exact hx
      · exact ih need hrest l hl
    · rw [hhC] at hl
      simp only [if_true] at hl
      rcases List.mem_cons.mp hl with rfl | hl
      · simp only [Lot.qty_remaining]
        have : min need x.qty_remaining ≤ x.qty_remaining := min_le_right _ _
        simp only [Lot.qty_remaining] at this hx
        linarith
      · exact ih (need - min need x.qty_remaining) hrest l hl

lemma consumeWalk_rem_ge (m : Nat) :
    ∀ (lots : List Lot) (need : ℚ), (∀ l ∈ lots, 0 ≤ l.qty_remaining) →
      need - stockOnHand lots m ≤ (consumeWalk m need lots).2.2.2 := by
  intro lots
  induction lots with
  | nil => intro need _; simp [consumeWalk, stockOnHand_nil]
  | cons x rest ih =>
    intro need hnn
    have hx : 0 ≤ x.qty_remaining := hnn x (List.mem_cons_self x rest)
    have hrest : ∀ l ∈ rest, 0 ≤ l.qty_remaining :=
      fun l hl => hnn l (List.mem_cons_of_mem x hl)
    simp only [consumeWalk]
    rcases hhC : (x.material_id == m && decide (0 < x.qty_remaining) && decide (0 < need)) with _ | _
    · simp only [Bool.false_eq_true, if_false]
      have := ih need hrest
      rw [stockOnHand_cons]
      by_cases hmat : (x.material_id == m) = true
      · simp only [hmat, if_true]
        linarith
      · simp only [hmat, Bool.false_eq_true, if_false]
        linarith
    · simp only [if_true]
      simp only [Bool.and_eq_true, beq_iff_eq, decide_eq_true_eq] at hhC
      have := ih (need - min need x.qty_remaining) hrest
      rw [stockOnHand_cons]
      simp only [hhC.1.1, beq_self_eq_true, if_true]
      have hmin : min need x.qty_remaining ≤ x.qty_remaining := min_le_right _ _
      linarith

lemma consumeWalk_nonpos_eq (m : Nat) :
    ∀ (lots : List Lot) (need : ℚ), need ≤ 0 →
      consumeWalk m need lots = (lots, [], 0, need) := by
  intro lots
  induction lots with
  | nil => intro need _; rfl
  | cons x rest ih =>
    intro need hneed
    simp only [consumeWalk]
    have : decide (0 < need) = false := by simpa using not_lt.mpr hneed
    rw [this]
    simp [ih need hneed]

lemma consumeWalk_length (m : Nat) :
    ∀ (lots : List Lot) (need : ℚ), (consumeWalk m need lots).1.length = lots.length := by
  intro lots
  induction lots with
  | nil => intro need; rfl
  | cons x rest ih =>
    intro need
    simp only [consumeWalk]
    split <;> simp [ih]

/-! ## Helper lemmas: the per-line runner -/

lemma runLines_stock :
    ∀ (lines : List WriteoffLine) (mats : List Material) (lots lots2 : List Lot)
      (mvs : List Movement) (cost : ℚ),
      runLines mats lots lines = .ok (lots2, mvs, cost) →
      ∀ mat, stockOnHand lots2 mat = stockOnHand lots mat + movementReplay mvs mat := by
  intro lines
  induction lines with
  | nil =>
    intro mats lots lots2 mvs cost h mat
    simp only [runLines, Except.ok.injEq, Prod.mk.injEq] at h
    rcases h with ⟨rfl, rfl, rfl⟩
    simp [movementReplay_nil]
  | cons l rest ih =>
    intro mats lots lots2 mvs cost h mat
    simp only [runLines] at h
    split at h
    · cases hconv : convertQty mats l with
      | error e => rw [hconv] at h; simp at h
      | ok need =>
        rw [hconv] at h
        simp only [] at h
        split at h
        · simp at h
        · cases hrec : runLines mats (consumeWalk l.material_id need lots).1 rest with
          | error e => rw [hrec] at h; simp at h
          | ok triple =>
            obtain ⟨lots2', mvs2, cost2⟩ := triple
            rw [hrec] at h
            simp only [Except.ok.injEq, Prod.mk.injEq] at h
            rcases h with ⟨rfl, rfl, rfl⟩
            have h1 := ih mats (consumeWalk l.material_id need lots).1 lots2' mvs2 cost2 hrec mat
            have h2 := consumeWalk_stock l.material_id mat lots need
            rw [movementReplay_append]
            linarith
    · simp at h

lemma runLines_insufficient :
    ∀ (lines : List WriteoffLine) (mats : List Material) (lots : List Lot),
      (∀ l ∈ lots, 0 ≤ l.qty_remaining) →
      (∀ wl ∈ lines, 0 < wl.qty ∧ ∃ q, convertQty mats wl = .ok q) →
      (∃ wl ∈ lines, ∃ q, convertQty mats wl = .ok q ∧ stockOnHand lots wl.material_id < q) →
      ∃ m sh, runLines mats lots lines = .error (.insufficientStock m sh) := by
  intro lines
  induction lines with
  | nil =>
    intro mats lots _ _ hshort
    rcases hshort with ⟨wl, hwl, _⟩
    simp at hwl
  | cons l rest ih =>
    intro mats lots hnn hall hshort
    obtain ⟨hqty, q0, hconv0⟩ := hall l (List.mem_cons_self l rest)
    simp only [runLines, hconv0, hqty, if_true]
    by_cases hrem : 0 < (consumeWalk l.material_id q0 lots).2.2.2
    · exact ⟨l.material_id, (consumeWalk l.material_id q0 lots).2.2.2, by simp [hrem]⟩
    · simp only [hrem, if_false]
      -- the shortfall line cannot be the head: the head was fully served
      have hheadok : ¬ (stockOnHand lots l.material_id < q0) := by
        intro hlt
        have := consumeWalk_rem_ge l.material_id lots q0 hnn
        exact hrem (by linarith)
      have hshort' : ∃ wl ∈ rest, ∃ q, convertQty mats wl = .ok q ∧
          stockOnHand (consumeWalk l.material_id q0 lots).1 wl.material_id < q := by
        rcases hshort with ⟨wl, hwl, q, hc, hlt⟩
        rcases List.mem_cons.mp hwl with rfl | hwl
        · rw [hconv0] at hc
          cases hc
          exact absurd hlt hheadok
        · exact ⟨wl, hwl, q, hc,
            lt_of_le_of_lt (consumeWalk_stock_le l.material_id wl.material_id lots q0) hlt⟩
      obtain ⟨m, sh, hrec⟩ := ih mats (consumeWalk l.material_id q0 lots).1
        (consumeWalk_nonneg l.material_id lots q0 hnn)
        (fun wl hwl => hall wl (List.mem_cons_of_mem l hwl)) hshort'
      refine ⟨m, sh, ?_⟩
      rw [hrec]

/-- Placeholder lot used only as the default of out-of-range list indexing. -/
def dummyLot : Lot :=
  { lot_id := 0, material_id := 0, qty_in := 0, qty_out := 0, unit_cost := 0, created_at := 0 }

/-- No-skip property of the FIFO walk: if the walk consumed from the lot at
position `j`, every earlier position `i < j` holding a lot of the requested
material is fully drained afterwards. -/
lemma consumeWalk_noSkip (m : Nat) :
    ∀ (lots : List Lot) (need : ℚ), 0 ≤ need →
      (∀ l ∈ lots, 0 ≤ l.qty_remaining) →
      ∀ i j : Nat, i < j → j < lots.length →
        (lots.getD i dummyLot).material_id = m →
        (lots.getD j dummyLot).qty_out <
          ((consumeWalk m need lots).1.getD j dummyLot).qty_out →
        ((consumeWalk m need lots).1.getD i dummyLot).qty_remaining = 0 := by
  intro lots
  induction lots with
  | nil =>
    intro need _ _ i j _ hj _ _
    simp at hj
  | cons x rest ih =>
    intro need hneed hnn i j hij hj hmat hcons
    have hx : 0 ≤ x.qty_remaining := hnn x (List.mem_cons_self x rest)
    have hrest : ∀ l ∈ rest, 0 ≤ l.qty_remaining :=
      fun l hl => hnn l (List.mem_cons_of_mem x hl)
    obtain ⟨j', rfl⟩ : ∃ j', j = j' + 1 :=
      ⟨j - 1, by omega⟩
    have hj' : j' < rest.length := by simpa using hj
    simp only [consumeWalk] at hcons ⊢
    by_cases hhC : (x.material_id == m && decide (0 < x.qty_remaining) && decide (0 < need)) = true
    · -- head consumed
      simp only [hhC, if_true, List.getD_cons_succ] at hcons ⊢
      simp only [Bool.and_eq_true, beq_iff_eq, decide_eq_true_eq] at hhC
      obtain ⟨⟨hmx, hxpos⟩, hnpos⟩ := hhC
      have hc_le_need : min need x.qty_remaining ≤ need := min_le_left _ _
      have hneed2 : 0 ≤ need - min need x.qty_remaining := by linarith
      cases i with
      | zero =>
        simp only [List.getD_cons_zero]
        by_cases hfull : x.qty_remaining ≤ need
        · simp only [Lot.qty_remaining] at *
          rw [min_eq_right hfull]
          ring
        · push_neg at hfull
          have hz : need - min need x.qty_remaining = 0 := by
            rw [min_eq_left hfull.le]; ring
          rw [hz, consumeWalk_nonpos_eq m rest 0 le_rfl] at hcons
          exact absurd hcons (lt_irrefl _)
      | succ i2 =>
        simp only [List.getD_cons_succ] at hmat ⊢
        exact ih (need - min need x.qty_remaining) hneed2 hrest i2 j' (by omega) hj' hmat hcons
    · -- head not consumed
      simp only [Bool.not_eq_true] at hhC
      simp only [hhC, Bool.false_eq_true, if_false, List.getD_cons_succ] at hcons ⊢
      cases i with
      | zero =>
        simp only [List.getD_cons_zero] at hmat ⊢
        rw [Bool.and_eq_false_iff, Bool.and_eq_false_iff] at hhC
        rcases hhC with (hm | hr) | hn
        · rw [beq_eq_false_iff_ne] at hm
          exact absurd hmat hm
        · have hr2 : ¬ 0 < x.qty_remaining := by simpa using hr
          linarith [hx, not_lt.mp hr2]
        · have hzero : need ≤ 0 := by simpa using of_decide_eq_false hn
          rw [consumeWalk_nonpos_eq m rest need hzero] at hcons
          exact absurd hcons (lt_irrefl _)
      | succ i2 =>
        simp only [List.getD_cons_succ] at hmat ⊢
        exact ih need hneed hrest i2 j' (by omega) hj' hmat hcons

/-! ## Helper lemmas: shape of successful operations -/

lemma postDoc_ok_elim {s s' : EngineState} {docId : Nat}
    (h : postDoc s docId = .ok s') :
    ∃ doc, findDoc s docId = some doc ∧ doc.status = .draft ∧
      doc.lines.all (lineMaterialOk s.materials) = true ∧
      s' = { s with
        lots := s.lots ++ mkLots doc.vat_mode s.nextLotId s.clock doc.lines
        movements := s.movements ++ mkReceipts (mkLots doc.vat_mode s.nextLotId s.clock doc.lines)
        purchases := s.purchases.map (fun d =>
          if d.id == docId then { d with status := .posted, posted_at := some s.clock } else d)
        nextLotId := s.nextLotId + doc.lines.length
        clock := s.clock + 1 } := by
  unfold postDoc at h
  split at h
  · exact absurd h (by simp)
  · next doc hfd =>
    split at h
    · next hs =>
      split at h
      · next hl =>
        simp only [Except.ok.injEq] at h
        exact ⟨doc, hfd, by simpa using hs, hl, h.symm⟩
      · exact absurd h (by simp)
    · exact absurd h (by simp)

lemma voidDoc_ok_elim {s s' : EngineState} {docId : Nat} {reason : String}
    (h : voidDoc s docId reason = .ok s') :
    ∃ doc, findDoc s docId = some doc ∧ doc.status = .draft ∧
      s' = { s with purchases := s.purchases.map (fun d =>
        if d.id == docId then { d with status := .void, void_reason := some reason } else d) } := by
  unfold voidDoc at h
  split at h
  · exact absurd h (by simp)
  · next doc hfd =>
    split at h
    · next hs =>
      simp only [Except.ok.injEq] at h
      exact ⟨doc, hfd, by simpa using hs, h.symm⟩
    · exact absurd h (by simp)

lemma createDraft_ok_elim {s s' : EngineState} {mode : VatMode} {lines : List PurchaseLine}
    (h : createDraft s mode lines = .ok s') :
    s' = { s with
      purchases := s.purchases ++
        [{ id := s.nextDocId, vat_mode := mode, status := .draft, lines := lines
           posted_at := none, void_reason := none }]
      nextDocId := s.nextDocId + 1 } := by
  unfold createDraft at h
  by_cases hv : lines.all (fun l => lineMaterialOk s.materials l && lineBoundsOk l) = true
  · rw [if_pos hv] at h
    simp only [Except.ok.injEq] at h
    exact h.symm
  · rw [if_neg hv] at h
    exact absurd h (by simp)

lemma createWriteoff_ok_elim {s s' : EngineState} {reason : WoReason}
    {comment : Option String} {lines : List WriteoffLine}
    (h : createWriteoff s reason comment lines = .ok s') :
    ∃ lots2 mvs cost, runLines s.materials (fifoSort s.lots) lines = .ok (lots2, mvs, cost) ∧
      s' = { s with
        lots := lots2
        movements := s.movements ++ mvs
        writeoffs := s.writeoffs ++ [{ reason := reason, comment := comment, cost := cost }]
        clock := s.clock + 1 } := by
  unfold createWriteoff at h
  cases hrl : runLines s.materials (fifoSort s.lots) lines with
  | error e => rw [hrl] at h; exact absurd h (by simp)
  | ok triple =>
    obtain ⟨lots2, mvs, cost⟩ := triple
    rw [hrl] at h
    simp only [Except.ok.injEq] at h
    exact ⟨lots2, mvs, cost, rfl, h.symm⟩

/-- `find?` over a list mapped by an id-preserving function. -/
lemma find?_map_id_preserving (ps : List PurchaseDocument)
    (g : PurchaseDocument → PurchaseDocument) (hg : ∀ d, (g d).id = d.id) (n : Nat) :
    (ps.map g).find? (fun d => d.id == n) = ((ps.find? (fun d => d.id == n)).map g) := by
  induction ps with
  | nil => rfl
  | cons d rest ih =>
    simp only [List.map_cons, List.find?]
    rw [hg d]
    by_cases hd : (d.id == n) = true
    · simp [hd]
    · simp only [Bool.not_eq_true] at hd
      simp [hd, ih]

/-! ## Claim theorems -/

/-- C1 (Conservation): for every reachable state of the engine and every
material, the stock on hand — Σ `qty_remaining` over that material's lots —
equals the replay of the Movement Ledger — Σ signed movement quantities for
that material; `StockOnHand(materialId)` always agrees with a replay of the
ledger. -/
theorem conservation_stock_matches_ledger :
    ∀ (s : EngineState), Reachable s →
      ∀ m, stockOnHand s.lots m = movementReplay s.movements m := by
  intro s hs
  induction hs with
  | init => intro m; simp [initState, stockOnHand_nil, movementReplay_nil]
  | step _ hstep ih =>
    cases hstep with
    | material uom tracked =>
      intro m
      simpa [addMaterial] using ih m
    | draft s' mode lines h =>
      have hsp := createDraft_ok_elim h
      subst hsp
      intro m
      simpa using ih m
    | post s' docId h =>
      obtain ⟨doc, hfd, hst, hall, rfl⟩ := postDoc_ok_elim h
      intro m
      simp only []
      rw [stockOnHand_append, movementReplay_append, ih m,
        mkReceipts_replay _ (mkLots_qty_out _ _ _ _) m]
    | void s' docId reason h =>
      obtain ⟨doc, hfd, hst, rfl⟩ := voidDoc_ok_elim h
      intro m
      simpa using ih m
    | writeoff s' reason comment lines h =>
      obtain ⟨lots2, mvs, cost, hrun, rfl⟩ := createWriteoff_ok_elim h
      intro m
      simp only []
      have h1 := runLines_stock lines _ _ lots2 mvs cost hrun m
      rw [movementReplay_append, h1, stockOnHand_perm (fifoSort_perm _) m, ih m]

/-- Concrete demo: state after creating one lot-tracked material. -/
def demoMatState : EngineState := addMaterial initState "m2" true

/-- Concrete demo purchase line: 100 m² at unit price 50, VAT rate 0. -/
def demoLine : PurchaseLine :=
  { material_id := 1, qty := 100, uom := "m2", unit_price := 50, vat_rate := 0 }

/-- Concrete demo: state after creating a DRAFT purchase of `demoLine`. -/
def demoDraftState : EngineState :=
  { demoMatState with
    purchases := [{ id := 1, vat_mode := .no_vat, status := .draft, lines := [demoLine]
                    posted_at := none, void_reason := none }]
    nextDocId := 2 }

/-- Concrete demo: state after posting the DRAFT purchase (one lot, one
receipt movement). -/
def demoPostedState : EngineState :=
  { demoDraftState with
    lots := [{ lot_id := 1, material_id := 1, qty_in := 100, qty_out := 0
               unit_cost := 50, created_at := 0 }]
    movements := [{ lot_id := 1, material_id := 1, mv_type := .receipt, qty := 100 }]
    purchases := [{ id := 1, vat_mode := .no_vat, status := .posted, lines := [demoLine]
                    posted_at := some 0, void_reason := none }]
    nextLotId := 2
    clock := 1 }

lemma demoDraft_ok : createDraft demoMatState .no_vat [demoLine] = .ok demoDraftState := by
  rfl

lemma demoPost_ok : postDoc demoDraftState 1 = .ok demoPostedState := by
  rfl

lemma demoPosted_reachable : Reachable demoPostedState :=
  Reachable.step
    (Reachable.step
      (Reachable.step Reachable.init (EngineStep.material initState "m2" true))
      (EngineStep.draft demoMatState demoDraftState .no_vat [demoLine] demoDraft_ok))
    (EngineStep.post demoDraftState demoPostedState 1 demoPost_ok)

/-- Witness for C1: the conservation theorem applied to a concrete reachable
state holding one posted purchase. -/
theorem conservation_stock_matches_ledger_witness :
    Reachable demoPostedState ∧
      stockOnHand demoPostedState.lots 1 = movementReplay demoPostedState.movements 1 :=
  ⟨demoPosted_reachable,
    conservation_stock_matches_ledger demoPostedState demoPosted_reachable 1⟩

/-- Concrete demo: three lots of material 1 with remaining [5,5,5], created at
times 1 < 2 < 3. -/
def demoThreeLots : List Lot :=
  [{ lot_id := 1, material_id := 1, qty_in := 5, qty_out := 0, unit_cost := 1, created_at := 1 },
   { lot_id := 2, material_id := 1, qty_in := 5, qty_out := 0, unit_cost := 1, created_at := 2 },
   { lot_id := 3, material_id := 1, qty_in := 5, qty_out := 0, unit_cost := 1, created_at := 3 }]

/-- Concrete demo: an engine state holding the three lots of `demoThreeLots`. -/
def demoThreeLotState : EngineState :=
  { initState with
    materials := [{ id := 1, base_uom := "pcs", is_lot_tracked := true, is_void := false }]
    lots := demoThreeLots
    nextMatId := 2, nextLotId := 4, clock := 4 }

/-- Concrete demo write-off line: 8 pcs of material 1, base UOM, no factor. -/
def demoWoLine8 : WriteoffLine :=
  { material_id := 1, qty := 8, uom := "pcs", uom_factor := none }

/-- C2 (FIFO consumption): (1) the write-off engine walks the lots of a
material in ascending `(created_at, lot_id)` order — `fifoSort` always
produces a `FifoLE`-sorted list, and consumption amounts are by definition
`min(remaining_needed, lot.qty_remaining)` in `consumeWalk`; (2) no lot is
consumed while an older lot of the same material still has remaining quantity:
whenever position `j` of the FIFO-ordered list is consumed, every earlier
position `i < j` of that material ends fully drained; (3) concretely, with
three lots of remaining [5,5,5] created at t1<t2<t3, a write-off of 8 leaves
remaining [0,2,5]. -/
theorem writeoff_fifo_consumption :
    (∀ lots : List Lot, List.Sorted FifoLE (fifoSort lots)) ∧
    (∀ (lots : List Lot) (m : Nat) (need : ℚ), 0 ≤ need →
      (∀ l ∈ lots, 0 ≤ l.qty_remaining) →
      ∀ i j : Nat, i < j → j < (fifoSort lots).length →
        ((fifoSort lots).getD i dummyLot).material_id = m →
        ((fifoSort lots).getD j dummyLot).qty_out <
          ((consumeWalk m need (fifoSort lots)).1.getD j dummyLot).qty_out →
        ((consumeWalk m need (fifoSort lots)).1.getD i dummyLot).qty_remaining = 0) ∧
    ((createWriteoff demoThreeLotState .production none [demoWoLine8]).map
        (fun st => st.lots.map Lot.qty_remaining) = .ok [0, 2, 5]) := by
  refine ⟨fifoSort_sorted, ?_, ?_⟩
  · intro lots m need hneed hnn i j hij hj hmat hcons
    have hnn' : ∀ l ∈ fifoSort lots, 0 ≤ l.qty_remaining :=
      fun l hl => hnn l ((fifoSort_perm lots).mem_iff.mp hl)
    exact consumeWalk_noSkip m (fifoSort lots) need hneed hnn' i j hij hj hmat hcons
  · norm_num [createWriteoff, runLines, convertQty, consumeWalk, fifoSort, insertFifo,
      fifoLE, Lot.qty_remaining, demoThreeLotState, demoThreeLots, demoWoLine8, initState,
      Except.map]

/-- Witness for C2: the no-skip part of the theorem applied to the concrete
three-lot scenario — a write-off of 8 consumes from the second-oldest lot
(position 1), so the oldest lot (position 0) must end fully drained. -/
theorem writeoff_fifo_consumption_witness :
    (0:ℚ) ≤ 8 ∧ (∀ l ∈ demoThreeLots, 0 ≤ l.qty_remaining) ∧
      ((consumeWalk 1 8 (fifoSort demoThreeLots)).1.getD 0 dummyLot).qty_remaining = 0 := by
  refine ⟨by norm_num, ?_, ?_⟩
  · intro l hl
    simp only [demoThreeLots, List.mem_cons, List.not_mem_nil, or_false] at hl
    rcases hl with rfl | rfl | rfl <;> norm_num [Lot.qty_remaining]
  · refine writeoff_fifo_consumption.2.1 demoThreeLots 1 8 (by norm_num) ?_ 0 1
      (by norm_num) ?_ ?_ ?_
    · intro l hl
      simp only [demoThreeLots, List.mem_cons, List.not_mem_nil, or_false] at hl
      rcases hl with rfl | rfl | rfl <;> norm_num [Lot.qty_remaining]
    · norm_num [fifoSort, insertFifo, fifoLE, demoThreeLots]
    · norm_num [fifoSort, insertFifo, fifoLE, demoThreeLots]
    · norm_num [fifoSort, insertFifo, fifoLE, consumeWalk, Lot.qty_remaining, demoThreeLots]

/-- Concrete demo: two materials; material 1 has one lot of 10, material 2 one
lot of 5. -/
def demoTwoMatState : EngineState :=
  { initState with
    materials := [{ id := 1, base_uom := "pcs", is_lot_tracked := true, is_void := false },
                  { id := 2, base_uom := "pcs", is_lot_tracked := true, is_void := false }]
    lots := [{ lot_id := 1, material_id := 1, qty_in := 10, qty_out := 0, unit_cost := 1, created_at := 1 },
             { lot_id := 2, material_id := 2, qty_in := 5, qty_out := 0, unit_cost := 1, created_at := 2 }]
    nextMatId := 3, nextLotId := 3, clock := 3 }

/-- Concrete demo: a two-line write-off whose first line (6 of material 1) has
enough stock but whose second line (9 of material 2) exceeds the 5 on hand. -/
def demoWoLinesTwo : List WriteoffLine :=
  [{ material_id := 1, qty := 6, uom := "pcs", uom_factor := none },
   { material_id := 2, qty := 9, uom := "pcs", uom_factor := none }]

/-- C3 (Write-off atomicity): if any line of a write-off requests more than the
total available FIFO stock of its material, the entire `CreateWriteoff` fails
with `InsufficientStock` — it never returns a new state, so every lot
(including lots of other lines' materials) and the Movement Ledger are left
unchanged and no `WriteoffDocument` is created.  Concretely, the two-line
write-off `demoWoLinesTwo` against `demoTwoMatState` fails naming material 2
with shortfall 4 even though its first line alone had enough stock. -/
theorem writeoff_insufficient_stock_atomic :
    (∀ (s : EngineState) (reason : WoReason) (comment : Option String)
       (lines : List WriteoffLine),
      (∀ lt ∈ s.lots, 0 ≤ lt.qty_remaining) →
      (∀ wl ∈ lines, 0 < wl.qty ∧ ∃ q, convertQty s.materials wl = .ok q) →
      (∃ wl ∈ lines, ∃ q, convertQty s.materials wl = .ok q ∧
        stockOnHand s.lots wl.material_id < q) →
      (∃ m sh, createWriteoff s reason comment lines = .error (.insufficientStock m sh)) ∧
        ∀ s', createWriteoff s reason comment lines ≠ .ok s') ∧
    (createWriteoff demoTwoMatState .production none demoWoLinesTwo =
      .error (.insufficientStock 2 4)) := by
  constructor
  · intro s reason comment lines hnn hall hshort
    have hnn' : ∀ l ∈ fifoSort s.lots, 0 ≤ l.qty_remaining :=
      fun l hl => hnn l ((fifoSort_perm s.lots).mem_iff.mp hl)
    have hshort' : ∃ wl ∈ lines, ∃ q, convertQty s.materials wl = .ok q ∧
        stockOnHand (fifoSort s.lots) wl.material_id < q := by
      rcases hshort with ⟨wl, hwl, q, hc, hlt⟩
      exact ⟨wl, hwl, q, hc, by rwa [stockOnHand_perm (fifoSort_perm s.lots)]⟩
    obtain ⟨m, sh, hrun⟩ :=
      runLines_insufficient lines s.materials (fifoSort s.lots) hnn' hall hshort'
    constructor
    · refine ⟨m, sh, ?_⟩
      unfold createWriteoff
      rw [hrun]
    · intro s' hok
      unfold createWriteoff at hok
      rw [hrun] at hok
      exact absurd hok (by simp)
  · norm_num [createWriteoff, runLines, convertQty, consumeWalk, fifoSort, insertFifo,
      fifoLE, Lot.qty_remaining, demoTwoMatState, demoWoLinesTwo, initState]

/-- Witness for C3: the general abort theorem applied to the concrete two-line
scenario; all hypotheses are discharged at that input. -/
theorem writeoff_insufficient_stock_atomic_witness :
    (∀ lt ∈ demoTwoMatState.lots, 0 ≤ lt.qty_remaining) ∧
    (∀ wl ∈ demoWoLinesTwo, 0 < wl.qty ∧
      ∃ q, convertQty demoTwoMatState.materials wl = .ok q) ∧
    (∃ wl ∈ demoWoLinesTwo, ∃ q, convertQty demoTwoMatState.materials wl = .ok q ∧
      stockOnHand demoTwoMatState.lots wl.material_id < q) ∧
    ∃ m sh, createWriteoff demoTwoMatState .production none demoWoLinesTwo =
      .error (.insufficientStock m sh) := by
  have h1 : ∀ lt ∈ demoTwoMatState.lots, 0 ≤ lt.qty_remaining := by
    intro lt hlt
    simp only [demoTwoMatState, initState, List.mem_cons, List.not_mem_nil, or_false] at hlt
    rcases hlt with rfl | rfl <;> norm_num [Lot.qty_remaining]
  have h2 : ∀ wl ∈ demoWoLinesTwo, 0 < wl.qty ∧
      ∃ q, convertQty demoTwoMatState.materials wl = .ok q := by
    intro wl hwl
    simp only [demoWoLinesTwo, List.mem_cons, List.not_mem_nil, or_false] at hwl
    rcases hwl with rfl | rfl
    · exact ⟨by norm_num, 6, by norm_num [convertQty, demoTwoMatState, initState]⟩
    · exact ⟨by norm_num, 9, by norm_num [convertQty, demoTwoMatState, initState]⟩
  have h3 : ∃ wl ∈ demoWoLinesTwo, ∃ q, convertQty demoTwoMatState.materials wl = .ok q ∧
      stockOnHand demoTwoMatState.lots wl.material_id < q := by
    refine ⟨{ material_id := 2, qty := 9, uom := "pcs", uom_factor := none },
      by simp [demoWoLinesTwo], 9, ?_, ?_⟩
    · norm_num [convertQty, demoTwoMatState, initState]
    · norm_num [stockOnHand, demoTwoMatState, initState, Lot.qty_remaining]
  exact ⟨h1, h2, h3,
    (writeoff_insufficient_stock_atomic.1 demoTwoMatState .production none
      demoWoLinesTwo h1 h2 h3).1⟩

/-- Placeholder purchase line used only as the default of out-of-range list
indexing. -/
def dummyPLine : PurchaseLine :=
  { material_id := 0, qty := 0, uom := "", unit_price := 0, vat_rate := 0 }

/-- The lot created for the i-th line of a posted document carries the VAT-net
unit cost of that line. -/
lemma mkLots_getD_unit_cost (mode : VatMode) (now : Nat) :
    ∀ (ls : List PurchaseLine) (startId i : Nat), i < ls.length →
      ((mkLots mode startId now ls).getD i dummyLot).unit_cost =
        unitCostOf mode ((ls.getD i dummyPLine).unit_price) ((ls.getD i dummyPLine).vat_rate) := by
  intro ls
  induction ls with
  | nil => intro startId i hi; simp at hi
  | cons x xs ih =>
    intro startId i hi
    cases i with
    | zero => simp [mkLots]
    | succ i2 =>
      simp only [mkLots, List.getD_cons_succ]
      exact ih (startId + 1) i2 (by simpa using hi)

/-- Concrete demo: DRAFT purchase of 100 m² at unit price 50, `vat_included`,
VAT rate 20 (the §8 scenario of the spec). -/
def demoVatDraftState : EngineState :=
  { demoMatState with
    purchases := [{ id := 1, vat_mode := .vat_included, status := .draft
                    lines := [{ material_id := 1, qty := 100, uom := "m2"
                                unit_price := 50, vat_rate := 20 }]
                    posted_at := none, void_reason := none }]
    nextDocId := 2 }

/-- Concrete demo: the state after posting `demoVatDraftState` — one lot of
100 m² at unit cost 50/1.2 = 125/3. -/
def demoVatPostedState : EngineState :=
  { demoVatDraftState with
    lots := [{ lot_id := 1, material_id := 1, qty_in := 100, qty_out := 0
               unit_cost := 125 / 3, created_at := 0 }]
    movements := [{ lot_id := 1, material_id := 1, mv_type := .receipt, qty := 100 }]
    purchases := [{ id := 1, vat_mode := .vat_included, status := .posted
                    lines := [{ material_id := 1, qty := 100, uom := "m2"
                                unit_price := 50, vat_rate := 20 }]
                    posted_at := some 0, void_reason := none }]
    nextLotId := 2
    clock := 1 }

/-- C4 (VAT-net unit cost): for every posted purchase line the created lot's
`unit_cost` is `unitCostOf` of its line — `unit_price` as-is under `no_vat`
and `vat_on_top`, and `unit_price / (1 + vat_rate/100)` under `vat_included`.
Concretely, unit price 50 with `vat_included` and rate 20 yields
50/1.2 = 125/3 = 41.666…, and posting the §8 purchase then writing off 30
units consumes at that cost: write-off cost 30 × 125/3 = 1250, lot remaining
70. -/
theorem posted_lot_unit_cost_vat_net :
    (∀ p r : ℚ, unitCostOf .no_vat p r = p) ∧
    (∀ p r : ℚ, unitCostOf .vat_on_top p r = p) ∧
    (∀ p r : ℚ, unitCostOf .vat_included p r = p / (1 + r / 100)) ∧
    (∀ (s s' : EngineState) (docId : Nat), postDoc s docId = .ok s' →
      ∃ doc, findDoc s docId = some doc ∧
        s'.lots = s.lots ++ mkLots doc.vat_mode s.nextLotId s.clock doc.lines ∧
        ∀ i, i < doc.lines.length →
          ((mkLots doc.vat_mode s.nextLotId s.clock doc.lines).getD i dummyLot).unit_cost =
            unitCostOf doc.vat_mode (doc.lines.getD i dummyPLine).unit_price
              (doc.lines.getD i dummyPLine).vat_rate) ∧
    (unitCostOf .vat_included 50 20 = 125 / 3) ∧
    (postDoc demoVatDraftState 1 = .ok demoVatPostedState) ∧
    ((createWriteoff demoVatPostedState .production none
        [{ material_id := 1, qty := 30, uom := "m2", uom_factor := none }]).map
      (fun st => (st.lots.map Lot.qty_remaining, st.writeoffs.map WriteoffDocument.cost)) =
      .ok ([70], [1250])) := by
  refine ⟨fun p r => rfl, fun p r => rfl, fun p r => rfl, ?_, ?_, ?_, ?_⟩
  · intro s s' docId h
    obtain ⟨doc, hfd, _, _, rfl⟩ := postDoc_ok_elim h
    exact ⟨doc, hfd, rfl, fun i hi => mkLots_getD_unit_cost doc.vat_mode s.clock
      doc.lines s.nextLotId i hi⟩
  · norm_num [unitCostOf]
  · norm_num [postDoc, findDoc, demoVatDraftState, demoVatPostedState, demoMatState,
      addMaterial, initState, lineMaterialOk, mkLots, mkReceipts, unitCostOf]
  · norm_num [createWriteoff, runLines, convertQty, consumeWalk, fifoSort, insertFifo,
      fifoLE, Lot.qty_remaining, demoVatPostedState, demoVatDraftState, demoMatState,
      addMaterial, initState, Except.map]

/-- Witness for C4: the posted-lot part of the theorem applied at the concrete
§8 posting, with the `postDoc` success hypothesis discharged there. -/
theorem posted_lot_unit_cost_vat_net_witness :
    postDoc demoVatDraftState 1 = .ok demoVatPostedState ∧
      ∃ doc, findDoc demoVatDraftState 1 = some doc ∧
        demoVatPostedState.lots = demoVatDraftState.lots ++
          mkLots doc.vat_mode demoVatDraftState.nextLotId demoVatDraftState.clock doc.lines ∧
        ∀ i, i < doc.lines.length →
          ((mkLots doc.vat_mode demoVatDraftState.nextLotId demoVatDraftState.clock
              doc.lines).getD i dummyLot).unit_cost =
            unitCostOf doc.vat_mode (doc.lines.getD i dummyPLine).unit_price
              (doc.lines.getD i dummyPLine).vat_rate := by
  have hpost : postDoc demoVatDraftState 1 = .ok demoVatPostedState :=
    posted_lot_unit_cost_vat_net.2.2.2.2.2.1
  exact ⟨hpost, posted_lot_unit_cost_vat_net.2.2.2.1 demoVatDraftState
    demoVatPostedState 1 hpost⟩

/-- Posting a document that is not in DRAFT status fails with
`AlreadyFinalized` (§4.1 failure conditions). -/
lemma postDoc_nondraft {s : EngineState} {docId : Nat} {doc : PurchaseDocument}
    (hfd : findDoc s docId = some doc) (hne : doc.status ≠ .draft) :
    postDoc s docId = .error .alreadyFinalized := by
  have hb : (doc.status == DocStatus.draft) = false := by simpa using hne
  simp [postDoc, hfd, hb]

/-- C5 (Idempotent posting rejection): invoking `Post` on a document whose
status is not DRAFT (i.e. already POSTED or VOID) fails with
`AlreadyFinalized`; and after any successful `Post`, posting the same document
id again fails with `AlreadyFinalized`, so exactly one set of lots — one lot
per line — is ever created for that document. -/
theorem post_idempotent_rejection :
    (∀ (s : EngineState) (docId : Nat) (doc : PurchaseDocument),
      findDoc s docId = some doc → doc.status ≠ .draft →
      postDoc s docId = .error .alreadyFinalized) ∧
    (∀ (s s' : EngineState) (docId : Nat), postDoc s docId = .ok s' →
      postDoc s' docId = .error .alreadyFinalized ∧
      ∃ doc, findDoc s docId = some doc ∧ doc.status = .draft ∧
        s'.lots.length = s.lots.length + doc.lines.length) := by
  constructor
  · intro s docId doc hfd hne
    exact postDoc_nondraft hfd hne
  · intro s s' docId h
    obtain ⟨doc, hfd, hst, hall, rfl⟩ := postDoc_ok_elim h
    have hfd2 := hfd
    unfold findDoc at hfd2
    have hpredP : doc.id = docId := by
      have hb := (List.find?_eq_some.mp hfd2).1
      simpa using hb
    have hg : ∀ d : PurchaseDocument,
        ((fun d => if (d.id == docId) = true then
          { d with status := DocStatus.posted, posted_at := some s.clock } else d) d).id = d.id := by
      intro d
      by_cases hid : (d.id == docId) = true <;> simp [hid]
    constructor
    · have hfind : findDoc { s with
          lots := s.lots ++ mkLots doc.vat_mode s.nextLotId s.clock doc.lines
          movements := s.movements ++ mkReceipts (mkLots doc.vat_mode s.nextLotId s.clock doc.lines)
          purchases := s.purchases.map (fun d =>
            if d.id == docId then { d with status := .posted, posted_at := some s.clock } else d)
          nextLotId := s.nextLotId + doc.lines.length
          clock := s.clock + 1 } docId =
          some { doc with status := DocStatus.posted, posted_at := some s.clock } := by
        unfold findDoc
        simp only []
        rw [find?_map_id_preserving _ _ hg, hfd2]
        simp [hpredP]
      exact postDoc_nondraft hfind (by simp)
    · exact ⟨doc, hfd, hst, by simp [mkLots_length]⟩

/-- Witness for C5: both parts applied at the concrete posted demo state —
re-posting document 1 of `demoPostedState` fails with `AlreadyFinalized` and
the first posting created exactly one lot for the one-line document. -/
theorem post_idempotent_rejection_witness :
    postDoc demoDraftState 1 = .ok demoPostedState ∧
      postDoc demoPostedState 1 = .error .alreadyFinalized ∧
      ∃ doc, findDoc demoDraftState 1 = some doc ∧ doc.status = .draft ∧
        demoPostedState.lots.length = demoDraftState.lots.length + doc.lines.length :=
  ⟨demoPost_ok, post_idempotent_rejection.2 demoDraftState demoPostedState 1 demoPost_ok⟩

/-- C6 (Void only from DRAFT): `Void(purchaseDocId, reason)` succeeds only
while the document is in DRAFT — on any other status it fails with the
409-class `conflict` error; on success it changes only the document's status
and void metadata, never touching the Lot Store, the Movement Ledger, the
materials or the write-offs; in particular a POSTED document never transitions
to VOID. -/
theorem void_only_from_draft :
    (∀ (s : EngineState) (docId : Nat) (doc : PurchaseDocument) (r : String),
      findDoc s docId = some doc → doc.status ≠ .draft →
      voidDoc s docId r = .error .conflict) ∧
    (∀ (s s' : EngineState) (docId : Nat) (r : String), voidDoc s docId r = .ok s' →
      (∃ doc, findDoc s docId = some doc ∧ doc.status = .draft) ∧
      s'.lots = s.lots ∧ s'.movements = s.movements ∧ s'.materials = s.materials ∧
      s'.writeoffs = s.writeoffs ∧
      s'.purchases = s.purchases.map (fun d =>
        if d.id == docId then { d with status := .void, void_reason := some r } else d)) ∧
    (∀ (s : EngineState) (docId : Nat) (doc : PurchaseDocument) (r : String)
       (s' : EngineState),
      findDoc s docId = some doc → doc.status = .posted →
      voidDoc s docId r ≠ .ok s') := by
  have part1 : ∀ (s : EngineState) (docId : Nat) (doc : PurchaseDocument) (r : String),
      findDoc s docId = some doc → doc.status ≠ .draft →
      voidDoc s docId r = .error .conflict := by
    intro s docId doc r hfd hne
    have hb : (doc.status == DocStatus.draft) = false := by simpa using hne
    simp [voidDoc, hfd, hb]
  refine ⟨part1, ?_, ?_⟩
  · intro s s' docId r h
    obtain ⟨doc, hfd, hst, rfl⟩ := voidDoc_ok_elim h
    exact ⟨⟨doc, hfd, hst⟩, rfl, rfl, rfl, rfl, rfl⟩
  · intro s docId doc r s' hfd hposted hok
    rw [part1 s docId doc r hfd (by simp [hposted])] at hok
    exact absurd hok (by simp)

/-- The POSTED purchase document held by `demoPostedState`. -/
def demoPostedDoc : PurchaseDocument :=
  { id := 1, vat_mode := .no_vat, status := .posted, lines := [demoLine]
    posted_at := some 0, void_reason := none }

/-- The state obtained by voiding the DRAFT document of `demoDraftState`. -/
def demoVoidState : EngineState :=
  { demoDraftState with
    purchases := [{ id := 1, vat_mode := .no_vat, status := .void, lines := [demoLine]
                    posted_at := none, void_reason := some "manual" }] }

/-- Witness for C6: voiding the POSTED demo document fails with `conflict`,
while voiding the DRAFT demo document succeeds and leaves the Lot Store and
the Movement Ledger untouched. -/
theorem void_only_from_draft_witness :
    voidDoc demoPostedState 1 "manual" = .error .conflict ∧
      voidDoc demoDraftState 1 "manual" = .ok demoVoidState ∧
      demoVoidState.lots = demoDraftState.lots ∧
      demoVoidState.movements = demoDraftState.movements := by
  have hok : voidDoc demoDraftState 1 "manual" = .ok demoVoidState := by rfl
  have happ := void_only_from_draft.2.1 demoDraftState demoVoidState 1 "manual" hok
  exact ⟨void_only_from_draft.1 demoPostedState 1 demoPostedDoc "manual" rfl
      (by simp [demoPostedDoc]),
    hok, happ.2.1, happ.2.2.1⟩

/-- C7 (UOM conversion): a write-off line whose UOM differs from the
material's base UOM and that supplies no `uom_factor` is rejected with the
400-class bad-UOM error — `CreateWriteoff` on such a first line fails with
`badUom` and never returns a state, so no stock is consumed; when a
`uom_factor` is supplied, the requested quantity is converted to
`qty * uom_factor` in the base UOM before the FIFO allocation. -/
theorem writeoff_uom_conversion :
    (∀ (mats : List Material) (l : WriteoffLine) (m : Material),
      mats.find? (fun mm => mm.id == l.material_id) = some m →
      l.uom_factor = none → l.uom ≠ m.base_uom →
      convertQty mats l = .error (.badUom l.material_id)) ∧
    (∀ (mats : List Material) (l : WriteoffLine) (m : Material) (f : ℚ),
      mats.find? (fun mm => mm.id == l.material_id) = some m →
      l.uom_factor = some f →
      convertQty mats l = .ok (l.qty * f)) ∧
    (∀ (s : EngineState) (reason : WoReason) (comment : Option String)
       (l : WriteoffLine) (rest : List WriteoffLine) (m : Material),
      0 < l.qty →
      s.materials.find? (fun mm => mm.id == l.material_id) = some m →
      l.uom_factor = none → l.uom ≠ m.base_uom →
      createWriteoff s reason comment (l :: rest) = .error (.badUom l.material_id) ∧
        ∀ s', createWriteoff s reason comment (l :: rest) ≠ .ok s') := by
  have part1 : ∀ (mats : List Material) (l : WriteoffLine) (m : Material),
      mats.find? (fun mm => mm.id == l.material_id) = some m →
      l.uom_factor = none → l.uom ≠ m.base_uom →
      convertQty mats l = .error (.badUom l.material_id) := by
    intro mats l m hfind hfac hne
    have hb : (l.uom == m.base_uom) = false := by simpa using hne
    simp [convertQty, hfind, hfac, hb]
  refine ⟨part1, ?_, ?_⟩
  · intro mats l m f hfind hfac
    simp [convertQty, hfind, hfac]
  · intro s reason comment l rest m hq hfind hfac hne
    have hrun : runLines s.materials (fifoSort s.lots) (l :: rest) =
        .error (.badUom l.material_id) := by
      simp [runLines, hq, part1 s.materials l m hfind hfac hne]
    constructor
    · simp [createWriteoff, hrun]
    · intro s' hok
      rw [show createWriteoff s reason comment (l :: rest) = .error (.badUom l.material_id)
        from by simp [createWriteoff, hrun]] at hok
      exact absurd hok (by simp)

/-- Witness for C7: the rejection and conversion parts applied to concrete
lines against `demoTwoMatState` (base UOM "pcs") — a line in "mp" with no
factor makes the whole write-off fail with `badUom`, while the same line with
factor 4/5 converts to 2 × 4/5 = 8/5. -/
theorem writeoff_uom_conversion_witness :
    createWriteoff demoTwoMatState .production none
        [{ material_id := 1, qty := 2, uom := "mp", uom_factor := none }] =
      .error (.badUom 1) ∧
    convertQty demoTwoMatState.materials
        { material_id := 1, qty := 2, uom := "mp", uom_factor := some (4 / 5) } =
      .ok (2 * (4 / 5)) := by
  constructor
  · exact (writeoff_uom_conversion.2.2 demoTwoMatState .production none
      { material_id := 1, qty := 2, uom := "mp", uom_factor := none } []
      { id := 1, base_uom := "pcs", is_lot_tracked := true, is_void := false }
      (by norm_num) rfl rfl (by simp)).1
  · exact writeoff_uom_conversion.2.1 demoTwoMatState.materials
      { material_id := 1, qty := 2, uom := "mp", uom_factor := some (4 / 5) }
      { id := 1, base_uom := "pcs", is_lot_tracked := true, is_void := false }
      (4 / 5) rfl rfl

/-- C8 counterexample: the legacy purchases page (`src/unnamed/part_000`)
defaults its `vatMode` state to `with_vat` and offers it in its VAT select, but
`with_vat` is not one of the spec's three vat_mode values — so not every
purchase-creation path submits a vat_mode from
{no_vat, vat_included, vat_on_top}. -/
theorem vat_mode_domain_counterexample :
    legacyVatModeDefault ∈ legacyVatModeValues ∧
      vatModeDomain legacyVatModeDefault = false := by
  constructor
  · simp [legacyVatModeDefault, legacyVatModeValues]
  · rfl

/-- C8 as amended: the warehouse purchase form only ever submits a vat_mode
from exactly {no_vat, vat_included, vat_on_top} — every value of its
`VAT_MODES` options is in the spec's domain. -/
theorem warehouse_vat_mode_in_domain :
    ∀ v ∈ warehouseVatModeValues, vatModeDomain v = true := by
  intro v hv
  simp only [warehouseVatModeValues, List.mem_cons, List.not_mem_nil, or_false] at hv
  rcases hv with rfl | rfl | rfl <;> rfl

/-- Witness for the amended C8: membership and domain check at `"no_vat"`. -/
theorem warehouse_vat_mode_in_domain_witness :
    "no_vat" ∈ warehouseVatModeValues ∧ vatModeDomain "no_vat" = true :=
  ⟨by simp [warehouseVatModeValues],
    warehouse_vat_mode_in_domain "no_vat" (by simp [warehouseVatModeValues])⟩

/-- C9 counterexample: the `cleanLines` filter of the warehouse page's
`createPurchase` keeps a line with a selected material, a finite qty of −5 and
a finite unit price — it checks only truthiness of `material_id` and
finiteness of `qty`/`unit_price`, never `qty > 0` — so the warehouse
purchase-creation path can submit a line violating `qty > 0`. -/
theorem warehouse_filter_keeps_nonpositive_qty :
    warehouseLineKept { material_id := some 1, qty := some (-5), uom := "m2"
                        unit_price := some 10, vat_rate := some 0 } = true ∧
      ¬ (0 : ℚ) < -5 := by
  constructor
  · rfl
  · norm_num

/-- C9 as amended: the backend operation (modelled from the spec) rejects any
purchase whose lines include qty ≤ 0 with `ValidationError` before any write;
the legacy purchases page only submits lines with `material_id > 0` and
`qty > 0` (but does not check `unit_price ≥ 0`); the warehouse page's filter
guarantees only a truthy material and finite qty/unit_price — positivity is
not enforced client-side there. -/
theorem purchase_line_validation_amended :
    (∀ (s : EngineState) (mode : VatMode) (lines : List PurchaseLine) (l : PurchaseLine),
      l ∈ lines → l.qty ≤ 0 →
      createDraft s mode lines = .error .validation) ∧
    (∀ l : LegacyRawLine, legacyLineKept l = true →
      0 < l.material_id ∧ jsGtZero l.qty = true) ∧
    (∀ l : WarehouseRawLine, warehouseLineKept l = true →
      jsTruthyId l.material_id = true ∧ l.qty.isSome ∧ l.unit_price.isSome) := by
  refine ⟨?_, ?_, ?_⟩
  · intro s mode lines l hmem hq
    have hbounds : lineBoundsOk l = false := by
      unfold lineBoundsOk
      have hq2 : decide (0 < l.qty) = false := by simpa using not_lt.mpr hq
      simp [hq2]
    have hall : lines.all (fun l => lineMaterialOk s.materials l && lineBoundsOk l) = false := by
      rw [List.all_eq_false]
      exact ⟨l, hmem, by simp [hbounds]⟩
    simp [createDraft, hall]
  · intro l hl
    unfold legacyLineKept at hl
    rw [Bool.and_eq_true] at hl
    exact ⟨by simpa using hl.1, hl.2⟩
  · intro l hl
    unfold warehouseLineKept at hl
    rw [Bool.and_eq_true, Bool.and_eq_true] at hl
    exact ⟨hl.1.1, by simpa using hl.1.2, by simpa using hl.2⟩

/-- Witness for the amended C9: the validation part applied to a concrete
purchase with a qty −5 line against the demo material state. -/
theorem purchase_line_validation_amended_witness :
    ({ material_id := 1, qty := -5, uom := "m2", unit_price := 10, vat_rate := 0
        : PurchaseLine }.qty ≤ 0) ∧
      createDraft demoMatState .no_vat
        [{ material_id := 1, qty := -5, uom := "m2", unit_price := 10, vat_rate := 0 }] =
        .error .validation := by
  refine ⟨by norm_num, ?_⟩
  exact purchase_line_validation_amended.1 demoMatState .no_vat
    [{ material_id := 1, qty := -5, uom := "m2", unit_price := 10, vat_rate := 0 }]
    { material_id := 1, qty := -5, uom := "m2", unit_price := 10, vat_rate := 0 }
    (by simp) (by norm_num)

lemma purchaseTotals_foldl (lines : List DraftLineNums) :
    ∀ a b : ℚ,
      lines.foldl
        (fun (acc : ℚ × ℚ) l =>
          let lineNet := asNum l.qty * asNum l.unit_price
          let lineVat := lineNet * (asNum l.vat_rate / 100)
          (acc.1 + lineNet, acc.2 + lineVat)) (a, b) =
      (a + (lines.map (fun l => asNum l.qty * asNum l.unit_price)).sum,
       b + (lines.map (fun l =>
         asNum l.qty * asNum l.unit_price * (asNum l.vat_rate / 100))).sum) := by
  induction lines with
  | nil => intro a b; simp
  | cons x xs ih =>
    intro a b
    simp only [List.foldl_cons, List.map_cons, List.sum_cons, ih, Prod.mk.injEq]
    constructor <;> ring

/-- C10 (purchase form totals): for every list of line drafts, the totals
shown by the purchase modal satisfy net = Σ qty·unit_price,
vat = Σ qty·unit_price·(vat_rate/100) and gross = net + vat; the computation
is identical for every selected vat_mode — the displayed gross always adds the
computed VAT on top of the entered prices, even when vat_mode is
`vat_included`. -/
theorem purchase_totals_formula :
    ∀ (vatModeA vatModeB : String) (lines : List DraftLineNums),
      displayedTotals vatModeA lines = displayedTotals vatModeB lines ∧
      (purchaseTotals lines).net =
        (lines.map (fun l => asNum l.qty * asNum l.unit_price)).sum ∧
      (purchaseTotals lines).vat =
        (lines.map (fun l =>
          asNum l.qty * asNum l.unit_price * (asNum l.vat_rate / 100))).sum ∧
      (purchaseTotals lines).gross = (purchaseTotals lines).net + (purchaseTotals lines).vat := by
  intro vA vB lines
  refine ⟨rfl, ?_, ?_, ?_⟩
  · unfold purchaseTotals
    rw [purchaseTotals_foldl lines 0 0]
    simp
  · unfold purchaseTotals
    rw [purchaseTotals_foldl lines 0 0]
    simp
  · rfl
